import Mathlib

/-!
Verification of the peer-lifecycle and overlay-routing engine of the
Ataraxia mesh-messaging library.

The definitions below are a shallow embedding of the TypeScript sources:

- the negotiation state machine of AbstractPeer (receiveData dispatch,
  switchToActive, abort, handleDisconnect, receiveAuthOk,
  handleSendingAuthReply, pickNextAuthProvider, sendInitialAuth,
  registerLatencyReply and the latency getter);
- RequestReplyHelper (prepareRequest, registerReply, registerError,
  releaseId and the timeout timers), embedded as a state machine over
  traces of operations;
- Topology (addPeer, handleNodeSummaryMessage) over an explicit state
  holding the nodes map and the peers map.

JavaScript maps keyed by node identifier are embedded as association
lists in insertion order; timers are embedded as flags or armed
deadlines; asynchronous send completion is passed in as an explicit
boolean; a thrown error surfaces as an Option result.  Effects that the
original code performs on collaborators (event emission, frame sends,
auth-flow destruction, disconnect requests) are returned as an explicit
event list so theorems can talk about their presence and order.
-/

namespace Ataraxia

/-- Node identifiers are opaque byte strings, compared by value. -/
abbrev NodeId := List Nat

/-- The closed enumeration of wire frame types (PeerMessageType). -/
inductive PeerMessageType where
  | Hello
  | Select
  | Auth
  | AuthData
  | Ok
  | Reject
  | Begin
  | Ping
  | Pong
  | Bye
  | Data
  | DataAck
  | DataReject
  | NodeSummary
  | NodeRequest
  | NodeDetails
deriving DecidableEq, Fintype

/-- Peer negotiation states, as in the const enum State of AbstractPeer. -/
inductive State where
  | Initial
  | WaitingForHello
  | WaitingForSelectAck
  | WaitingForAuth
  | WaitingForAuthData
  | WaitingForBegin
  | WaitingForSelect
  | WaitingForAuthAck
  | Active
deriving DecidableEq, Fintype

/-- Disconnect reasons, as in DisconnectReason. -/
inductive DisconnectReason where
  | Manual
  | NegotiationFailed
  | AuthReject
  | PingTimeout
  | TransportError
deriving DecidableEq, Fintype

/-- Mirrors the defaulting in abort: the reason argument is optional and
falls back to NegotiationFailed (reason = reason ?? NegotiationFailed). -/
def defaultAbortReason (reason : Option DisconnectReason) : DisconnectReason :=
  reason.getD DisconnectReason.NegotiationFailed

/-- The action taken by the receiveData dispatch switch for one incoming
frame: either a handler of AbstractPeer is invoked, a disconnect is
requested (Bye), the connection is aborted, or the frame is surfaced on
the data event (the default case of the switch). -/
inductive RecvAction where
  | requestDisconnect (reason : DisconnectReason)
  | receivePing
  | receiveHello
  | receiveSelect
  | receiveAuth
  | receiveClientAuthData
  | receiveServerAuthData
  | receiveBegin
  | receiveSelectOK
  | receiveAuthOkAction
  | receiveAuthRejectAction
  | abort (reason : DisconnectReason)
  | emitData (t : PeerMessageType)
deriving DecidableEq

/-- Shallow embedding of the dispatch switch in AbstractPeer.receiveData.
Every abort call in the switch passes only a message, so the reason
defaults to NegotiationFailed.  Reject in WaitingForSelectAck is the
abort call with the SELECT-was-rejected message. -/
def receiveData (s : State) (t : PeerMessageType) : RecvAction :=
  match t with
  | .Bye => .requestDisconnect .Manual
  | .Ping => .receivePing
  | .Hello =>
      if s = .WaitingForHello then .receiveHello
      else .abort (defaultAbortReason none)
  | .Select =>
      if s = .WaitingForSelect then .receiveSelect
      else .abort (defaultAbortReason none)
  | .Auth =>
      if s = .WaitingForAuth then .receiveAuth
      else .abort (defaultAbortReason none)
  | .AuthData =>
      if s = .WaitingForAuthData then .receiveClientAuthData
      else if s = .WaitingForAuthAck then .receiveServerAuthData
      else .abort (defaultAbortReason none)
  | .Begin =>
      if s = .WaitingForBegin then .receiveBegin
      else .abort (defaultAbortReason none)
  | .Ok =>
      if s = .WaitingForSelectAck then .receiveSelectOK
      else if s = .WaitingForAuthAck then .receiveAuthOkAction
      else .abort (defaultAbortReason none)
  | .Reject =>
      if s = .WaitingForSelectAck then .abort (defaultAbortReason none)
      else if s = .WaitingForAuthAck then .receiveAuthRejectAction
      else .abort (defaultAbortReason none)
  | other => .emitData other

/-- The (state, frame) pairs that the negotiation sequences of the
specification list as handled transitions; the claim under scrutiny
asserts that every other pair aborts the peer. -/
def claimedNegotiationPair (s : State) (t : PeerMessageType) : Bool :=
  match s, t with
  | .WaitingForSelect, .Select => true
  | .WaitingForAuth, .Auth => true
  | .WaitingForAuthData, .AuthData => true
  | .WaitingForBegin, .Begin => true
  | .WaitingForHello, .Hello => true
  | .WaitingForSelectAck, .Ok => true
  | .WaitingForAuthAck, .Ok => true
  | .WaitingForSelectAck, .Reject => true
  | .WaitingForAuthAck, .Reject => true
  | .WaitingForAuthAck, .AuthData => true
  | _, _ => false

/-- The frame types whose dispatch arm carries a state check followed by
an abort in the receiveData switch. -/
def negotiationFrameType (t : PeerMessageType) : Bool :=
  match t with
  | .Hello | .Select | .Auth | .AuthData | .Begin | .Ok | .Reject => true
  | _ => false

/-- The mutable fields of AbstractPeer that the verified operations read
or write.  Timers are embedded as armed flags; the two auth-flow fields
record whether a flow object is currently referenced (the code never
clears these references, it only calls destroy on them, which appears in
the event trace). -/
structure PeerState where
  state : State
  helloTimeoutArmed : Bool
  pingSenderArmed : Bool
  pingCheckerArmed : Bool
  authClientFlow : Bool
  authServerFlow : Bool
  lastLatencyTime : Int
  latencyValues : List Int
deriving DecidableEq

/-- Observable effects of a peer operation, in execution order. -/
inductive PeerEvent where
  | send (t : PeerMessageType)
  | emitConnect
  | emitDisconnect
  | emitData (t : PeerMessageType)
  | destroyClientFlow
  | destroyServerFlow
  | requestDisconnect (reason : DisconnectReason)
deriving DecidableEq

/-- AbstractPeer.switchToActive: clear the negotiation timeout, switch
state to Active, destroy whichever auth flows are referenced, arm the
ping-check and ping-send intervals, and emit the connect event last.
The auth-flow fields stay set because the source only calls destroy on
them without clearing the references. -/
def switchToActive (p : PeerState) : PeerState × List PeerEvent :=
  ({ p with
      helloTimeoutArmed := false,
      state := .Active,
      pingCheckerArmed := true,
      pingSenderArmed := true },
   (if p.authClientFlow then [PeerEvent.destroyClientFlow] else [])
     ++ (if p.authServerFlow then [PeerEvent.destroyServerFlow] else [])
     ++ [PeerEvent.emitConnect])

/-- AbstractPeer.abort: clear the negotiation timeout and request a
disconnect, defaulting the reason to NegotiationFailed. -/
def abortPeer (p : PeerState) (reason : Option DisconnectReason) :
    PeerState × List PeerEvent :=
  ({ p with helloTimeoutArmed := false },
   [PeerEvent.requestDisconnect (defaultAbortReason reason)])

/-- AbstractPeer.handleDisconnect: clear the negotiation timeout and both
ping intervals, reset the state to Initial, and emit the disconnect event
when the peer had been Active.  Note that the auth-flow references are
not touched here. -/
def handleDisconnect (p : PeerState) (_reason : DisconnectReason) :
    PeerState × List PeerEvent :=
  ({ p with
      helloTimeoutArmed := false,
      pingSenderArmed := false,
      pingCheckerArmed := false,
      state := .Initial },
   if p.state = .Active then [PeerEvent.emitDisconnect] else [])

/-- First disconnect reason requested inside an event trace, if any. -/
def requestedDisconnectReason (evts : List PeerEvent) : Option DisconnectReason :=
  evts.findSome? (fun e =>
    match e with
    | .requestDisconnect r => some r
    | _ => none)

/-- Modelled from the spec: requestDisconnect is abstract in AbstractPeer
and its transport implementations (not under src) close the transport,
after which handleDisconnect runs with the requested reason.  This helper
completes a pending disconnect request so theorems can speak about the
state the peer ends up in. -/
def completeAbort (pe : PeerState × List PeerEvent) : PeerState × List PeerEvent :=
  match requestedDisconnectReason pe.2 with
  | some r =>
      let next := handleDisconnect pe.1 r
      (next.1, pe.2 ++ next.2)
  | none => pe

/-- AbstractPeer.receiveAuthOk: switch to Active first, then send Begin;
a failed send runs the catch handler, which aborts (with the default
reason NegotiationFailed).  Send completion is passed in explicitly. -/
def receiveAuthOk (beginSendSucceeds : Bool) (p : PeerState) :
    PeerState × List PeerEvent :=
  let active := switchToActive p
  if beginSendSucceeds then
    (active.1, active.2 ++ [PeerEvent.send .Begin])
  else
    let aborted := abortPeer active.1 none
    (aborted.1, active.2 ++ [PeerEvent.send .Begin] ++ aborted.2)

/-- Replies an auth-provider server flow can produce.  Modelled from the
spec for the shape of the auth module (not under src): a Data reply
carries optional bytes, and the falsy-data check in the source fires
exactly when no data is attached. -/
inductive AuthServerReply where
  | ok
  | reject
  | data (d : Option (List Nat))

/-- AbstractPeer.handleSendingAuthReply: Ok records a latency send and
moves to WaitingForBegin before sending Ok; Reject moves to
WaitingForAuth before sending Reject; Data first moves to
WaitingForAuthData, then aborts if the reply carries no data, otherwise
sends AuthData. -/
def handleSendingAuthReply (p : PeerState) (now : Int) (reply : AuthServerReply) :
    PeerState × List PeerEvent :=
  match reply with
  | .ok =>
      ({ p with lastLatencyTime := now, state := .WaitingForBegin },
       [PeerEvent.send .Ok])
  | .reject =>
      ({ p with state := .WaitingForAuth }, [PeerEvent.send .Reject])
  | .data d =>
      let p1 : PeerState := { p with state := .WaitingForAuthData }
      match d with
      | none => abortPeer p1 none
      | some _ => (p1, [PeerEvent.send .AuthData])

/-- The complete outcome of handling a server auth reply: the handler
itself followed by the completion of any disconnect it requested. -/
def serverAuthReplyOutcome (p : PeerState) (now : Int) (reply : AuthServerReply) :
    PeerState × List PeerEvent :=
  completeAbort (handleSendingAuthReply p now reply)

/-- An authentication provider as the client flow sees it: its method
identifier and whether it offers createClientFlow. -/
structure AuthProvider where
  id : Nat
  createClientFlow : Bool
deriving DecidableEq

/-- AbstractPeer.pickNextAuthProvider: pop providers from the front of
the per-peer queue until one that can create a client flow is found,
returning it together with the remaining queue; none when the queue is
exhausted (at which point the queue has been drained). -/
def pickNextAuthProvider : List AuthProvider → Option (AuthProvider × List AuthProvider)
  | [] => none
  | p :: rest =>
      if p.createClientFlow then some (p, rest) else pickNextAuthProvider rest

/-- What sendInitialAuth does: either send Auth with the picked method
id, or abort with AuthReject. -/
inductive ClientAuthAction where
  | sendAuth (method : Nat)
  | abortReason (r : DisconnectReason)
deriving DecidableEq

/-- AbstractPeer.sendInitialAuth: pick the next provider with a client
flow; if one exists, instantiate its flow and send Auth with its method
id; otherwise abort with AuthReject.  Returns the action together with
the remaining provider queue. -/
def sendInitialAuth (l : List AuthProvider) : ClientAuthAction × List AuthProvider :=
  match pickNextAuthProvider l with
  | some (p, rest) => (.sendAuth p.id, rest)
  | none => (.abortReason .AuthReject, [])

/-- The sequence of auth methods attempted when every attempt is answered
with Reject (receiveAuthReject calls sendInitialAuth again on the
remaining queue), run with explicit fuel; fuel at least the queue length
is enough since each attempt shortens the queue. -/
def authRotation : Nat → List AuthProvider → List Nat
  | 0, _ => []
  | fuel + 1, l =>
      match sendInitialAuth l with
      | (.sendAuth m, rest) => m :: authRotation fuel rest
      | (.abortReason _, _) => []

/-- AbstractPeer.registerLatencyReply on the stored sample list: evict
the oldest sample when six are already stored, then append the new
sample. -/
def pushLatencySample (vs : List Int) (v : Int) : List Int :=
  (if vs.length > 5 then vs.drop 1 else vs) ++ [v]

/-- The latency-related fields of AbstractPeer. -/
structure LatencyState where
  lastLatencyTime : Int
  latencyValues : List Int
deriving DecidableEq

/-- AbstractPeer.registerLatencyReply: the new sample is the elapsed time
since the last registerLatencySend. -/
def registerLatencyReply (s : LatencyState) (now : Int) : LatencyState :=
  { s with latencyValues := pushLatencySample s.latencyValues (now - s.lastLatencyTime) }

/-- The latency getter: none embeds the thrown Latency-unknown error when
no samples exist; otherwise the floor of the mean, summed with the same
left fold the for loop performs. -/
def latency (s : LatencyState) : Option Int :=
  if s.latencyValues.length = 0 then none
  else some ((s.latencyValues.foldl (· + ·) 0).fdiv s.latencyValues.length)

/-- Effective timeout computed by the RequestReplyHelper constructor:
options.timeout falls back to 30000 whenever it is absent or falsy, and
the number 0 is falsy in JavaScript. -/
def effectiveTimeout (timeout : Option Nat) : Nat :=
  match timeout with
  | some t => if t = 0 then 30000 else t
  | none => 30000

/-- How a pending RequestReplyHelper promise was settled: resolved by
registerReply, or rejected by registerError; the flag on a rejection
records whether the rejecting error was the Timed-out error produced by
the armed timer. -/
inductive RROutcome where
  | resolved
  | rejected (timedOut : Bool)
deriving DecidableEq

/-- State of a RequestReplyHelper together with its armed timers and a
log of promise settlements.  The pending map is an association list of
request id to the absolute deadline of the timer armed for it (armed and
cleared exactly together with the map entry, as in the source); now is
the clock used to decide whether an armed timer may fire. -/
structure RRState where
  defaultTimeout : Nat
  now : Nat
  idCounter : Nat
  pending : List (Nat × Nat)
  outcomes : List (Nat × RROutcome)
deriving DecidableEq

/-- Lookup of the first entry with the given key, as Map.get on a map
whose keys are unique. -/
def lookupKey : List (Nat × Nat) → Nat → Option (Nat × Nat)
  | [], _ => none
  | e :: rest, id => if e.1 = id then some e else lookupKey rest id

/-- Removal of the first entry with the given key, as Map.delete. -/
def deleteKey : List (Nat × Nat) → Nat → List (Nat × Nat)
  | [], _ => []
  | e :: rest, id => if e.1 = id then rest else e :: deleteKey rest id

/-- RequestReplyHelper.releaseId: return unchanged when the id is not
pending; otherwise clear its timer and remove the entry (both embedded
as the removal of the pending entry carrying the deadline). -/
def releaseId (s : RRState) (id : Nat) : RRState :=
  match lookupKey s.pending id with
  | none => s
  | some _ => { s with pending := deleteKey s.pending id }

/-- RequestReplyHelper.registerReply: a no-op when the id is unknown;
otherwise release the id first and then resolve the promise (logged as a
resolved outcome). -/
def registerReply (s : RRState) (id : Nat) : RRState :=
  match lookupKey s.pending id with
  | none => s
  | some _ =>
      let s1 := releaseId s id
      { s1 with outcomes := s1.outcomes ++ [(id, RROutcome.resolved)] }

/-- RequestReplyHelper.registerError: a no-op when the id is unknown;
otherwise release the id first and then reject the promise.  The flag
records whether the rejecting error is the Timed-out error of the armed
timer. -/
def registerError (s : RRState) (id : Nat) (timedOut : Bool) : RRState :=
  match lookupKey s.pending id with
  | none => s
  | some _ =>
      let s1 := releaseId s id
      { s1 with outcomes := s1.outcomes ++ [(id, RROutcome.rejected timedOut)] }

/-- RequestReplyHelper.prepareRequest: return the next id from the
counter, increment the counter, and store a pending entry whose timer
deadline is the current time plus the configured timeout. -/
def prepareRequest (s : RRState) : Nat × RRState :=
  (s.idCounter,
   { s with
      idCounter := s.idCounter + 1,
      pending := s.pending ++ [(s.idCounter, s.now + s.defaultTimeout)] })

/-- Operations of a RequestReplyHelper trace: the three public calls,
the passage of time, and the firing of the timer armed for an id. -/
inductive RROp where
  | prepare
  | reply (id : Nat)
  | error (id : Nat)
  | elapse (dt : Nat)
  | fire (id : Nat)
deriving DecidableEq

/-- One step of a RequestReplyHelper trace.  A timer can only fire while
its id is still pending (releaseId cleared it otherwise) and once its
deadline has been reached; its callback is registerError with the
Timed-out error, exactly as armed in prepareRequest. -/
def rrStep (s : RRState) : RROp → RRState
  | .prepare => (prepareRequest s).2
  | .reply id => registerReply s id
  | .error id => registerError s id false
  | .elapse dt => { s with now := s.now + dt }
  | .fire id =>
      match lookupKey s.pending id with
      | some e => if e.2 ≤ s.now then registerError s id true else s
      | none => s

/-- Run a whole trace of operations. -/
def rrRun (s : RRState) (ops : List RROp) : RRState :=
  ops.foldl rrStep s

/-- A freshly constructed helper with the given effective timeout. -/
def rrInit (timeout : Nat) : RRState :=
  { defaultTimeout := timeout, now := 0, idCounter := 0, pending := [], outcomes := [] }

/-- The ids handed out by the prepareRequest calls of a trace, in call
order. -/
def rrPreparedIds (s : RRState) : List RROp → List Nat
  | [] => []
  | op :: rest =>
      match op with
      | .prepare => (prepareRequest s).1 :: rrPreparedIds (rrStep s .prepare) rest
      | _ => rrPreparedIds (rrStep s op) rest

/-- Invariant of reachable RequestReplyHelper states: pending and settled
ids all come from the counter, keys are unique on both sides, no id is
both pending and settled, and every allocated id is one or the other. -/
def rrInv (s : RRState) : Prop :=
  (∀ e ∈ s.pending, e.1 < s.idCounter)
  ∧ (∀ o ∈ s.outcomes, o.1 < s.idCounter)
  ∧ (s.pending.map Prod.fst).Nodup
  ∧ (s.outcomes.map Prod.fst).Nodup
  ∧ (∀ id, ¬(id ∈ s.pending.map Prod.fst ∧ id ∈ s.outcomes.map Prod.fst))
  ∧ (∀ id, id < s.idCounter →
      id ∈ s.pending.map Prod.fst ∨ id ∈ s.outcomes.map Prod.fst)

/-- A TopologyNode record as Topology manipulates it.  Modelled from the
spec for the parts of TopologyNode not under src: a freshly created node
starts at version 0, not directly connected, with no outgoing edges; the
outgoing set of the self node lists the tracked peers. -/
structure TopoNode where
  id : NodeId
  version : Nat
  direct : Bool
  outgoing : List NodeId
deriving DecidableEq

/-- The PeerDetails Topology keeps per tracked peer: the peer id, how
many event subscriptions were registered for it, and the set of node ids
it currently advertises. -/
structure PeerInfo where
  peerId : NodeId
  subscriptions : Nat
  nodes : List NodeId
deriving DecidableEq

/-- The state of a Topology: its own network id, the nodes map and the
peers map, both association lists in insertion order with unique keys as
IdMap guarantees. -/
structure TopologyState where
  selfId : NodeId
  nodes : List TopoNode
  peers : List PeerInfo
deriving DecidableEq

/-- Topology.getOrCreate: return the node recorded under the id, creating
and appending a fresh record when the id is unknown. -/
def getOrCreate (ts : TopologyState) (id : NodeId) : TopoNode × TopologyState :=
  match ts.nodes.find? (fun n => n.id == id) with
  | some n => (n, ts)
  | none =>
      let n : TopoNode := { id := id, version := 0, direct := false, outgoing := [] }
      (n, { ts with nodes := ts.nodes ++ [n] })

/-- The version the local nodes map records for an id; 0 when the id is
unknown, matching the version of the record getOrCreate would create. -/
def localVersion (ts : TopologyState) (id : NodeId) : Nat :=
  match ts.nodes.find? (fun n => n.id == id) with
  | some n => n.version
  | none => 0

/-- One entry of a NodeSummary frame. -/
structure NodeRoutingSummary where
  id : NodeId
  version : Nat
deriving DecidableEq

/-- A NodeSummary frame: the version of the sender itself and the
id-version pairs of the nodes it advertises. -/
structure NodeSummaryMessage where
  ownVersion : Nat
  nodes : List NodeRoutingSummary
deriving DecidableEq

/-- The for-of loop of handleNodeSummaryMessage over the summary
entries: create-or-get each node, add its id to the found set, and
append it to the request list when the local version is lower. -/
def summaryLoop (ts : TopologyState) (found req : List NodeId) :
    List NodeRoutingSummary → TopologyState × List NodeId × List NodeId
  | [] => (ts, found, req)
  | s :: rest =>
      let created := getOrCreate ts s.id
      summaryLoop created.2 (found ++ [s.id])
        (if created.1.version < s.version then req ++ [s.id] else req) rest

/-- Effects of handleNodeSummaryMessage: the ids requested, the ids of
the nodes on which removeRouting was invoked for the sending peer, and
whether a NodeRequest frame was sent back. -/
structure SummaryEffects where
  requested : List NodeId
  removedFrom : List NodeId
  sentNodeRequest : Bool
deriving DecidableEq

/-- The second for-of loop of handleNodeSummaryMessage: the ids of the
nodes on which removeRouting(peer) is invoked, namely every node other
than self whose id is neither in the found set nor a tracked peer. -/
def removeRoutingTargets (ts2 : TopologyState) (found : List NodeId) : List NodeId :=
  (ts2.nodes.filter (fun n =>
    decide (¬ n.id = ts2.selfId ∧ n.id ∉ found
      ∧ ts2.peers.find? (fun pi => pi.peerId == n.id) = none))).map (fun n => n.id)

/-- Topology.handleNodeSummaryMessage: seed the found set with the
sending peer id and the request list with the peer id when its reported
ownVersion is newer than the local record; walk the summary entries;
invoke removeRouting on the sending peer for every node other than self
that is neither in the found set nor a tracked peer; send NodeRequest
back exactly when the request list is non-empty. -/
def handleNodeSummaryMessage (ts : TopologyState) (peerId : NodeId)
    (message : NodeSummaryMessage) : TopologyState × SummaryEffects :=
  let created := getOrCreate ts peerId
  let peerNode := created.1
  let req0 : List NodeId :=
    if peerNode.version < message.ownVersion then [peerNode.id] else []
  let looped := summaryLoop created.2 [peerId] req0 message.nodes
  (looped.1,
   { requested := looped.2.2,
     removedFrom := removeRoutingTargets looped.1 looped.2.1,
     sentNodeRequest := !looped.2.2.isEmpty })

/-- Modelled from the spec: TopologyNode.updateSelf (not under src)
rebuilds the outgoing edge set of the self node from the currently
tracked peers and bumps its version exactly when the set changed. -/
def updateSelf (ts : TopologyState) : TopologyState :=
  let peerIds := ts.peers.map (fun pi => pi.peerId)
  { ts with
      nodes := ts.nodes.map (fun n =>
        if n.id == ts.selfId then
          (if n.outgoing == peerIds then n
           else { n with outgoing := peerIds, version := n.version + 1 })
        else n) }

/-- Effects of Topology.addPeer: how many event subscriptions were
registered on the given peer and whether a broadcast was queued. -/
structure AddPeerEffects where
  subscriptionsRegistered : Nat
  broadcastQueued : Bool
deriving DecidableEq

/-- Topology.addPeer: when a peer with the same id is already tracked,
return immediately; otherwise record the peer with its two event
subscriptions (data and disconnect), create-or-get its node and mark it
direct, rebuild the self node routing, and queue a broadcast. -/
def addPeer (ts : TopologyState) (peerId : NodeId) : TopologyState × AddPeerEffects :=
  match ts.peers.find? (fun pi => pi.peerId == peerId) with
  | some _ => (ts, { subscriptionsRegistered := 0, broadcastQueued := false })
  | none =>
      let info : PeerInfo := { peerId := peerId, subscriptions := 2, nodes := [] }
      let ts1 : TopologyState := { ts with peers := ts.peers ++ [info] }
      let ts2 := (getOrCreate ts1 peerId).2
      let ts3 : TopologyState :=
        { ts2 with
            nodes := ts2.nodes.map (fun n =>
              if n.id == peerId then { n with direct := true } else n) }
      let ts4 := updateSelf ts3
      (ts4, { subscriptionsRegistered := 2, broadcastQueued := true })

/-- A client peer mid-authentication: waiting for the auth
acknowledgement with the negotiation timeout armed and a live client
auth flow. -/
def peerAwaitingAuthAck : PeerState :=
  { state := .WaitingForAuthAck,
    helloTimeoutArmed := true,
    pingSenderArmed := false,
    pingCheckerArmed := false,
    authClientFlow := true,
    authServerFlow := false,
    lastLatencyTime := 0,
    latencyValues := [5] }

/-- A small topology used to instantiate the gossip theorems: self is
node 0, node 1 is a tracked peer, node 3 is known only through gossip. -/
def topologyExample : TopologyState :=
  { selfId := [0],
    nodes := [
      { id := [0], version := 5, direct := true, outgoing := [[1]] },
      { id := [1], version := 1, direct := true, outgoing := [] },
      { id := [3], version := 2, direct := false, outgoing := [] }],
    peers := [{ peerId := [1], subscriptions := 2, nodes := [[3]] }] }

/-- A NodeSummary from peer 1: its own version moved to 3 and it
advertises an unknown node 2 at version 4; node 3 is no longer listed. -/
def summaryExample : NodeSummaryMessage :=
  { ownVersion := 3, nodes := [{ id := [2], version := 4 }] }

/-- A configured provider queue whose first provider cannot create a
client flow. -/
def providerQueueExample : List AuthProvider :=
  [{ id := 1, createClientFlow := false },
   { id := 2, createClientFlow := true },
   { id := 3, createClientFlow := true }]

/-- C10: a RequestReplyHelper constructed with options.timeout equal to 0
ends up with the default 30000 ms because the constructor computes
options.timeout || 30000, so no option value can configure a 0 ms
timeout. -/
theorem requestReplyHelper_timeout_default :
    effectiveTimeout (some 0) = 30000 ∧ ∀ t : Option Nat, 0 < effectiveTimeout t := by
  refine ⟨rfl, fun t => ?_⟩
  cases t with
  | none => simp [effectiveTimeout]
  | some t =>
      simp only [effectiveTimeout]
      split
      · omega
      · omega

/-- C1 counterexample: (Initial, Ping) is not one of the listed
negotiation transitions, yet receiveData answers the ping instead of
aborting, so the claim that every unlisted (state, frame) pair aborts
with NegotiationFailed is false. -/
theorem receiveData_ping_not_aborted :
    claimedNegotiationPair State.Initial PeerMessageType.Ping = false
    ∧ receiveData State.Initial PeerMessageType.Ping = RecvAction.receivePing
    ∧ RecvAction.receivePing ≠ RecvAction.abort DisconnectReason.NegotiationFailed := by
  refine ⟨rfl, rfl, ?_⟩
  decide

/-- C1 amended: for the negotiation frame types Hello, Select, Auth,
AuthData, Begin, Ok and Reject, any (state, frame) pair outside the
listed transitions aborts the peer with the default reason
NegotiationFailed; Bye, Ping and the data-category frames are instead
handled in every state. -/
theorem receiveData_unexpected_negotiation_frame_aborts :
    ∀ (s : State) (t : PeerMessageType),
      negotiationFrameType t = true → claimedNegotiationPair s t = false →
      receiveData s t = RecvAction.abort DisconnectReason.NegotiationFailed := by
  decide

/-- Witness for the amended C1 theorem at the concrete pair
(Initial, Hello). -/
theorem receiveData_unexpected_negotiation_frame_aborts_witness :
    negotiationFrameType PeerMessageType.Hello = true
    ∧ claimedNegotiationPair State.Initial PeerMessageType.Hello = false
    ∧ receiveData State.Initial PeerMessageType.Hello
        = RecvAction.abort DisconnectReason.NegotiationFailed :=
  ⟨rfl, rfl,
    receiveData_unexpected_negotiation_frame_aborts State.Initial PeerMessageType.Hello
      rfl rfl⟩

/-- C2 counterexample: when sending Begin fails, the catch handler aborts
the peer, requesting a disconnect with NegotiationFailed, and once the
requested disconnect completes the peer is no longer Active; the claim
that the peer is not torn down on a failed Begin send is false. -/
theorem receiveAuthOk_send_failure_aborts :
    PeerEvent.requestDisconnect DisconnectReason.NegotiationFailed
        ∈ (receiveAuthOk false peerAwaitingAuthAck).2
    ∧ (completeAbort (receiveAuthOk false peerAwaitingAuthAck)).1.state ≠ State.Active := by
  decide

/-- C2 amended: on Ok in WaitingForAuthAck the peer switches to Active
and emits the connect event strictly before the Begin frame is sent; if
sending Begin succeeds nothing further happens, while a failed send
aborts the peer with NegotiationFailed. -/
theorem receiveAuthOk_active_before_begin :
    ∀ (p : PeerState) (b : Bool),
      (receiveAuthOk b p).2
          = (switchToActive p).2 ++ [PeerEvent.send .Begin]
            ++ (if b then [] else [PeerEvent.requestDisconnect .NegotiationFailed])
      ∧ (switchToActive p).1.state = State.Active
      ∧ PeerEvent.emitConnect ∈ (switchToActive p).2
      ∧ PeerEvent.send .Begin ∉ (switchToActive p).2
      ∧ (receiveAuthOk b p).1.state = State.Active := by
  intro p b
  refine ⟨?_, rfl, ?_, ?_, ?_⟩
  · cases b <;> simp [receiveAuthOk, abortPeer, defaultAbortReason]
  · cases hc : p.authClientFlow <;> cases hs : p.authServerFlow <;>
      simp [switchToActive, hc, hs]
  · cases hc : p.authClientFlow <;> cases hs : p.authServerFlow <;>
      simp [switchToActive, hc, hs]
  · cases b <;> simp [receiveAuthOk, abortPeer, switchToActive]

/-- Witness for the receiveAuthOk ordering theorem at the concrete
client peer state. -/
theorem receiveAuthOk_active_before_begin_witness :
    (receiveAuthOk true peerAwaitingAuthAck).1.state = State.Active :=
  (receiveAuthOk_active_before_begin peerAwaitingAuthAck true).2.2.2.2

/-- C4: at a disconnect during authentication the peer clears all three
timers, but the live client auth flow is neither destroyed by
handleDisconnect nor by abort, and its reference survives: disconnect
does not release the auth flows, contradicting the claim. -/
theorem handleDisconnect_retains_auth_flows :
    (handleDisconnect peerAwaitingAuthAck DisconnectReason.NegotiationFailed).1.helloTimeoutArmed = false
    ∧ (handleDisconnect peerAwaitingAuthAck DisconnectReason.NegotiationFailed).1.pingSenderArmed = false
    ∧ (handleDisconnect peerAwaitingAuthAck DisconnectReason.NegotiationFailed).1.pingCheckerArmed = false
    ∧ (handleDisconnect peerAwaitingAuthAck DisconnectReason.NegotiationFailed).1.authClientFlow = true
    ∧ PeerEvent.destroyClientFlow
        ∉ (handleDisconnect peerAwaitingAuthAck DisconnectReason.NegotiationFailed).2
    ∧ PeerEvent.destroyClientFlow ∉ (abortPeer peerAwaitingAuthAck none).2 := by
  decide

/-- C6: a server Ok reply emits Ok and ends in WaitingForBegin; a Reject
reply emits Reject and ends in WaitingForAuth; a Data reply carrying
bytes emits AuthData and ends in WaitingForAuthData; a Data reply without
data aborts the peer, sends no AuthData frame, and once the requested
disconnect completes the peer is not left waiting in WaitingForAuthData
(its state is Initial). -/
theorem handleSendingAuthReply_cases :
    ∀ (p : PeerState) (now : Int),
      ((serverAuthReplyOutcome p now .ok).1.state = State.WaitingForBegin
        ∧ (serverAuthReplyOutcome p now .ok).2 = [PeerEvent.send .Ok])
      ∧ ((serverAuthReplyOutcome p now .reject).1.state = State.WaitingForAuth
        ∧ (serverAuthReplyOutcome p now .reject).2 = [PeerEvent.send .Reject])
      ∧ (∀ bytes : List Nat,
          (serverAuthReplyOutcome p now (.data (some bytes))).1.state = State.WaitingForAuthData
          ∧ (serverAuthReplyOutcome p now (.data (some bytes))).2 = [PeerEvent.send .AuthData])
      ∧ ((serverAuthReplyOutcome p now (.data none)).1.state = State.Initial
        ∧ (serverAuthReplyOutcome p now (.data none)).1.state ≠ State.WaitingForAuthData
        ∧ PeerEvent.send .AuthData ∉ (serverAuthReplyOutcome p now (.data none)).2
        ∧ PeerEvent.requestDisconnect DisconnectReason.NegotiationFailed
            ∈ (serverAuthReplyOutcome p now (.data none)).2) := by
  intro p now
  refine ⟨⟨?_, ?_⟩, ⟨?_, ?_⟩, fun bytes => ⟨?_, ?_⟩, ?_, ?_, ?_, ?_⟩ <;>
    simp [serverAuthReplyOutcome, handleSendingAuthReply, completeAbort,
      requestedDisconnectReason, abortPeer, defaultAbortReason, handleDisconnect,
      List.findSome?]

/-- Witness for the auth-reply theorem at the concrete peer state. -/
theorem handleSendingAuthReply_cases_witness :
    (serverAuthReplyOutcome peerAwaitingAuthAck 0 AuthServerReply.ok).1.state
      = State.WaitingForBegin :=
  (handleSendingAuthReply_cases peerAwaitingAuthAck 0).1.1

/-- Folding samples into the bounded buffer keeps exactly the most recent
six entries beyond any starting buffer that already fits the bound. -/
theorem foldl_push_latency (samples : List Int) :
    ∀ vs : List Int, vs.length ≤ 6 →
      samples.foldl pushLatencySample vs
        = (vs ++ samples).drop (vs.length + samples.length - 6) := by
  induction samples with
  | nil =>
      intro vs h
      have h0 : vs.length + List.length ([] : List Int) - 6 = 0 := by
        simp only [List.length_nil]
        omega
      rw [List.foldl_nil, List.append_nil, h0, List.drop_zero]
  | cons x rest ih =>
      intro vs h
      rw [List.foldl_cons]
      by_cases h5 : vs.length > 5
      · have h6 : vs.length = 6 := by omega
        cases vs with
        | nil => simp at h6
        | cons y ys =>
            have hys : ys.length = 5 := by simpa using h6
            have hpush : pushLatencySample (y :: ys) x = ys ++ [x] := by
              simp [pushLatencySample, hys]
            rw [hpush]
            have hlen : (ys ++ [x]).length ≤ 6 := by simp [hys]
            rw [ih _ hlen]
            have hidx1 : (ys ++ [x]).length + rest.length - 6 = rest.length := by
              simp [hys]
            have hidx2 :
                (y :: ys).length + (x :: rest).length - 6 = rest.length + 1 := by
              simp [hys]
            rw [hidx1, hidx2, List.append_assoc, List.singleton_append,
              List.cons_append, List.drop_succ_cons]
      · have hpush : pushLatencySample vs x = vs ++ [x] := by
          simp [pushLatencySample, h5]
        rw [hpush]
        have hlen : (vs ++ [x]).length ≤ 6 := by
          simp
          omega
        rw [ih _ hlen]
        have hidx : (vs ++ [x]).length + rest.length - 6
            = vs.length + (x :: rest).length - 6 := by
          simp
          omega
        rw [hidx, List.append_assoc, List.singleton_append]

/-- The left fold the latency getter uses equals the list sum. -/
theorem foldl_add_eq_sum : ∀ (l : List Int) (a : Int), l.foldl (· + ·) a = a + l.sum := by
  intro l
  induction l with
  | nil => intro a; simp
  | cons x xs ih =>
      intro a
      rw [List.foldl_cons, ih, List.sum_cons]
      ring

/-- C8: the sample list built by registerLatencyReply holds at most the
six most recent samples, evicting the oldest; the latency getter is the
floor of the integer mean of the stored samples; with no samples the
getter yields the error (none) instead of a number. -/
theorem latency_buffer_and_mean :
    (∀ samples : List Int,
       (samples.foldl pushLatencySample []).length ≤ 6
       ∧ samples.foldl pushLatencySample [] = samples.drop (samples.length - 6))
    ∧ (∀ (s : LatencyState) (now : Int),
        (registerLatencyReply s now).latencyValues
          = pushLatencySample s.latencyValues (now - s.lastLatencyTime))
    ∧ (∀ s : LatencyState, s.latencyValues = [] → latency s = none)
    ∧ (∀ s : LatencyState, s.latencyValues ≠ [] →
        latency s = some (s.latencyValues.sum.fdiv s.latencyValues.length)) := by
  refine ⟨fun samples => ⟨?_, ?_⟩, fun s now => rfl, fun s h => ?_, fun s h => ?_⟩
  · rw [foldl_push_latency samples [] (by simp)]
    simp
    omega
  · rw [foldl_push_latency samples [] (by simp)]
    simp
  · simp [latency, h]
  · have hlen : ¬ s.latencyValues.length = 0 := by
      simpa [List.length_eq_zero] using h
    rw [latency, if_neg hlen, foldl_add_eq_sum]
    rw [zero_add]

/-- Witness for the latency theorem: the getter errors on an empty buffer
and returns the floored mean on a non-empty one. -/
theorem latency_buffer_and_mean_witness :
    latency { lastLatencyTime := 0, latencyValues := [] } = none
    ∧ latency { lastLatencyTime := 0, latencyValues := [3, 4] }
        = some ((([3, 4] : List Int).sum).fdiv (([3, 4] : List Int).length)) :=
  ⟨latency_buffer_and_mean.2.2.1 _ rfl,
   latency_buffer_and_mean.2.2.2 _ (by decide)⟩

/-- A successful pick shortens the provider queue and commutes with the
filter by client-flow support. -/
theorem pickNextAuthProvider_some_spec
    {l : List AuthProvider} {p : AuthProvider} {rest : List AuthProvider}
    (h : pickNextAuthProvider l = some (p, rest)) :
    rest.length < l.length
    ∧ l.filter (fun q => q.createClientFlow)
        = p :: rest.filter (fun q => q.createClientFlow) := by
  induction l with
  | nil => simp [pickNextAuthProvider] at h
  | cons q qs ih =>
      rw [pickNextAuthProvider] at h
      by_cases hq : q.createClientFlow
      · rw [if_pos hq] at h
        simp only [Option.some.injEq, Prod.mk.injEq] at h
        obtain ⟨rfl, rfl⟩ := h
        refine ⟨by simp, ?_⟩
        simp [List.filter_cons, hq]
      · rw [if_neg hq] at h
        obtain ⟨ih1, ih2⟩ := ih h
        refine ⟨?_, ?_⟩
        · simp only [List.length_cons]
          omega
        · simp [List.filter_cons, hq, ih2]

/-- A failed pick means the queue has no provider with a client flow. -/
theorem pickNextAuthProvider_none_spec
    {l : List AuthProvider} (h : pickNextAuthProvider l = none) :
    l.filter (fun q => q.createClientFlow) = [] := by
  induction l with
  | nil => simp
  | cons q qs ih =>
      rw [pickNextAuthProvider] at h
      by_cases hq : q.createClientFlow
      · rw [if_pos hq] at h
        simp at h
      · rw [if_neg hq] at h
        simp [List.filter_cons, hq, ih h]

/-- Unfolding of one rotation step when a provider was picked. -/
theorem authRotation_succ_of_sendAuth {n m : Nat} {l rest : List AuthProvider}
    (h : sendInitialAuth l = (ClientAuthAction.sendAuth m, rest)) :
    authRotation (n + 1) l = m :: authRotation n rest := by
  have he : authRotation (n + 1) l
      = match sendInitialAuth l with
        | (.sendAuth m, rest) => m :: authRotation n rest
        | (.abortReason _, _) => [] := rfl
  rw [he, h]

/-- Unfolding of one rotation step when the queue was exhausted. -/
theorem authRotation_succ_of_abortReason {n : Nat} {l rest : List AuthProvider}
    {r : DisconnectReason}
    (h : sendInitialAuth l = (ClientAuthAction.abortReason r, rest)) :
    authRotation (n + 1) l = [] := by
  have he : authRotation (n + 1) l
      = match sendInitialAuth l with
        | (.sendAuth m, rest) => m :: authRotation n rest
        | (.abortReason _, _) => [] := rfl
  rw [he, h]

/-- C5: with rejections driving the rotation, the methods attempted are
exactly the configured providers in order, skipping those without
createClientFlow; sendInitialAuth aborts with AuthReject precisely when
no provider with a client flow remains; and a successful pick sends Auth
with that provider and keeps the rest of the queue for the next Reject. -/
theorem clientAuth_provider_rotation :
    (∀ (l : List AuthProvider) (fuel : Nat), l.length ≤ fuel →
       authRotation fuel l
         = (l.filter (fun q => q.createClientFlow)).map (fun q => q.id))
    ∧ (∀ l : List AuthProvider,
        (sendInitialAuth l).1 = ClientAuthAction.abortReason DisconnectReason.AuthReject
          ↔ l.filter (fun q => q.createClientFlow) = [])
    ∧ (∀ (l : List AuthProvider) (p : AuthProvider) (rest : List AuthProvider),
        pickNextAuthProvider l = some (p, rest) →
          sendInitialAuth l = (ClientAuthAction.sendAuth p.id, rest)) := by
  refine ⟨?_, ?_, ?_⟩
  · intro l fuel
    induction fuel generalizing l with
    | zero =>
        intro hle
        have hl : l = [] := List.length_eq_zero.mp (Nat.le_zero.mp hle)
        subst hl
        simp [authRotation]
    | succ n ih =>
        intro hle
        cases hp : pickNextAuthProvider l with
        | none =>
            have hs : sendInitialAuth l
                = (ClientAuthAction.abortReason DisconnectReason.AuthReject, []) := by
              simp [sendInitialAuth, hp]
            rw [authRotation_succ_of_abortReason hs, pickNextAuthProvider_none_spec hp]
            simp
        | some pr =>
            obtain ⟨p, rest⟩ := pr
            have hs : sendInitialAuth l = (ClientAuthAction.sendAuth p.id, rest) := by
              simp [sendInitialAuth, hp]
            obtain ⟨hlt, hfil⟩ := pickNextAuthProvider_some_spec hp
            rw [authRotation_succ_of_sendAuth hs, hfil, List.map_cons,
              ih rest (by omega)]
  · intro l
    cases hp : pickNextAuthProvider l with
    | none =>
        simp [sendInitialAuth, hp, pickNextAuthProvider_none_spec hp]
    | some pr =>
        obtain ⟨p, rest⟩ := pr
        rw [(pickNextAuthProvider_some_spec hp).2]
        simp [sendInitialAuth, hp]
  · intro l p rest h
    simp [sendInitialAuth, h]

/-- Witness for the provider-rotation theorem on a concrete queue whose
first provider has no client flow. -/
theorem clientAuth_provider_rotation_witness :
    authRotation 3 providerQueueExample
      = (providerQueueExample.filter (fun q => q.createClientFlow)).map (fun q => q.id)
    ∧ sendInitialAuth providerQueueExample
      = (ClientAuthAction.sendAuth 2, [{ id := 3, createClientFlow := true }]) :=
  ⟨clientAuth_provider_rotation.1 _ 3 (by decide),
   clientAuth_provider_rotation.2.2 _ { id := 2, createClientFlow := true } _ (by decide)⟩

/-- C9: when a peer with the same remoteId is already tracked, addPeer
returns with the whole topology state unchanged, registering no
subscriptions and queueing no broadcast. -/
theorem addPeer_existing_id_noop :
    ∀ (ts : TopologyState) (peerId : NodeId),
      (ts.peers.find? (fun pi => pi.peerId == peerId)).isSome = true →
      addPeer ts peerId
        = (ts, { subscriptionsRegistered := 0, broadcastQueued := false }) := by
  intro ts peerId h
  obtain ⟨pi, hpi⟩ := Option.isSome_iff_exists.mp h
  unfold addPeer
  rw [hpi]

/-- Witness for the addPeer theorem: peer 1 is already tracked in the
example topology, so adding it again changes nothing. -/
theorem addPeer_existing_id_noop_witness :
    addPeer topologyExample [1]
      = (topologyExample, { subscriptionsRegistered := 0, broadcastQueued := false }) :=
  addPeer_existing_id_noop topologyExample [1] (by decide)

/-- A successful key lookup returns an entry of the list carrying the
requested key. -/
theorem lookupKey_some {l : List (Nat × Nat)} {id : Nat} {e : Nat × Nat}
    (h : lookupKey l id = some e) : e.1 = id ∧ e ∈ l := by
  induction l with
  | nil => simp [lookupKey] at h
  | cons a rest ih =>
      rw [lookupKey] at h
      by_cases ha : a.1 = id
      · rw [if_pos ha] at h
        simp only [Option.some.injEq] at h
        subst h
        exact ⟨ha, by simp⟩
      · rw [if_neg ha] at h
        obtain ⟨h1, h2⟩ := ih h
        exact ⟨h1, by simp [h2]⟩

/-- A lookup fails exactly when no entry carries the key. -/
theorem lookupKey_eq_none {l : List (Nat × Nat)} {id : Nat} :
    lookupKey l id = none ↔ ∀ e ∈ l, e.1 ≠ id := by
  induction l with
  | nil => simp [lookupKey]
  | cons a rest ih =>
      rw [lookupKey]
      constructor
      · intro h
        by_cases ha : a.1 = id
        · rw [if_pos ha] at h
          exact absurd h (by simp)
        · rw [if_neg ha] at h
          intro e he
          rcases List.mem_cons.mp he with rfl | hmem
          · exact ha
          · exact ih.mp h e hmem
      · intro h
        have ha : a.1 ≠ id := h a (by simp)
        rw [if_neg ha]
        exact ih.mpr fun e he => h e (by simp [he])

/-- Deletion only removes entries. -/
theorem mem_deleteKey {l : List (Nat × Nat)} {id : Nat} {e : Nat × Nat}
    (h : e ∈ deleteKey l id) : e ∈ l := by
  induction l with
  | nil => simp [deleteKey] at h
  | cons a rest ih =>
      rw [deleteKey] at h
      by_cases ha : a.1 = id
      · rw [if_pos ha] at h
        exact List.mem_cons_of_mem a h
      · rw [if_neg ha] at h
        rcases List.mem_cons.mp h with rfl | hm
        · simp
        · exact List.mem_cons_of_mem a (ih hm)

/-- The keys left after a deletion form a sublist of the original keys. -/
theorem keys_deleteKey_sublist (l : List (Nat × Nat)) (id : Nat) :
    ((deleteKey l id).map Prod.fst).Sublist (l.map Prod.fst) := by
  induction l with
  | nil => simp [deleteKey]
  | cons a rest ih =>
      rw [deleteKey]
      by_cases ha : a.1 = id
      · rw [if_pos ha]
        simp only [List.map_cons]
        exact List.Sublist.cons a.1 (List.Sublist.refl _)
      · rw [if_neg ha]
        simp only [List.map_cons]
        exact List.Sublist.cons₂ a.1 ih

/-- Keys other than the deleted one survive the deletion. -/
theorem mem_keys_deleteKey_of_ne {l : List (Nat × Nat)} {id x : Nat}
    (hx : x ∈ l.map Prod.fst) (hne : x ≠ id) :
    x ∈ (deleteKey l id).map Prod.fst := by
  induction l with
  | nil => simp at hx
  | cons a rest ih =>
      rw [deleteKey]
      simp only [List.map_cons, List.mem_cons] at hx
      by_cases ha : a.1 = id
      · rw [if_pos ha]
        rcases hx with h | h
        · exact absurd (h.trans ha) hne
        · exact h
      · rw [if_neg ha]
        simp only [List.map_cons, List.mem_cons]
        rcases hx with h | h
        · exact Or.inl h
        · exact Or.inr (ih h)

/-- With unique keys, the deleted key is gone after the deletion. -/
theorem not_mem_keys_deleteKey {l : List (Nat × Nat)} {id : Nat}
    (hnd : (l.map Prod.fst).Nodup) : id ∉ (deleteKey l id).map Prod.fst := by
  induction l with
  | nil => simp [deleteKey]
  | cons a rest ih =>
      rw [deleteKey]
      simp only [List.map_cons, List.nodup_cons] at hnd
      obtain ⟨hna, hnd'⟩ := hnd
      by_cases ha : a.1 = id
      · rw [if_pos ha]
        exact ha ▸ hna
      · rw [if_neg ha]
        simp only [List.map_cons, List.mem_cons]
        intro h
        rcases h with h | h
        · exact ha h.symm
        · exact ih hnd' h

/-- With unique keys, membership determines the lookup result. -/
theorem lookupKey_of_mem_nodup {l : List (Nat × Nat)} {id d : Nat}
    (hnd : (l.map Prod.fst).Nodup) (hm : (id, d) ∈ l) :
    lookupKey l id = some (id, d) := by
  induction l with
  | nil => simp at hm
  | cons a rest ih =>
      rw [lookupKey]
      simp only [List.map_cons, List.nodup_cons] at hnd
      obtain ⟨hna, hnd'⟩ := hnd
      rcases List.mem_cons.mp hm with rfl | hmem
      · rw [if_pos rfl]
      · by_cases ha : a.1 = id
        · exfalso
          apply hna
          rw [ha]
          exact List.mem_map_of_mem Prod.fst hmem
        · rw [if_neg ha]
          exact ih hnd' hmem

/-- A key absent from the key list is not found. -/
theorem lookupKey_eq_none_of_not_mem {l : List (Nat × Nat)} {id : Nat}
    (h : id ∉ l.map Prod.fst) : lookupKey l id = none :=
  lookupKey_eq_none.mpr fun _e he heq => h (heq ▸ List.mem_map_of_mem Prod.fst he)

/-- registerReply for an unknown id leaves the state untouched. -/
theorem registerReply_of_lookup_none {s : RRState} {id : Nat}
    (h : lookupKey s.pending id = none) : registerReply s id = s := by
  unfold registerReply
  rw [h]

/-- registerError for an unknown id leaves the state untouched. -/
theorem registerError_of_lookup_none {s : RRState} {id : Nat} (b : Bool)
    (h : lookupKey s.pending id = none) : registerError s id b = s := by
  unfold registerError
  rw [h]

/-- registerReply for a pending id removes it and logs the resolution. -/
theorem registerReply_of_lookup_some {s : RRState} {id : Nat} {e : Nat × Nat}
    (h : lookupKey s.pending id = some e) :
    registerReply s id
      = { s with pending := deleteKey s.pending id,
                 outcomes := s.outcomes ++ [(id, RROutcome.resolved)] } := by
  unfold registerReply releaseId
  rw [h]

/-- registerError for a pending id removes it and logs the rejection. -/
theorem registerError_of_lookup_some {s : RRState} {id : Nat} {e : Nat × Nat} (b : Bool)
    (h : lookupKey s.pending id = some e) :
    registerError s id b
      = { s with pending := deleteKey s.pending id,
                 outcomes := s.outcomes ++ [(id, RROutcome.rejected b)] } := by
  unfold registerError releaseId
  rw [h]

/-- Unfolding of the fire step. -/
theorem rrStep_fire (s : RRState) (id : Nat) :
    rrStep s (.fire id)
      = match lookupKey s.pending id with
        | some e => if e.2 ≤ s.now then registerError s id true else s
        | none => s := rfl

/-- A timer for an id that is not pending never does anything. -/
theorem rrStep_fire_none {s : RRState} {id : Nat}
    (h : lookupKey s.pending id = none) : rrStep s (.fire id) = s := by
  rw [rrStep_fire, h]

/-- A timer for a pending id fires only once its deadline passed. -/
theorem rrStep_fire_some {s : RRState} {id : Nat} {e : Nat × Nat}
    (h : lookupKey s.pending id = some e) :
    rrStep s (.fire id) = if e.2 ≤ s.now then registerError s id true else s := by
  rw [rrStep_fire, h]

/-- Settling a pending id preserves the helper invariant. -/
theorem rrInv_settle {s : RRState} (h : rrInv s) {id : Nat} {e : Nat × Nat}
    (hl : lookupKey s.pending id = some e) (o : RROutcome) :
    rrInv { s with pending := deleteKey s.pending id,
                   outcomes := s.outcomes ++ [(id, o)] } := by
  unfold rrInv at h ⊢
  obtain ⟨hp, ho, hnp, hno, hdisj, hcomp⟩ := h
  obtain ⟨he1, he2⟩ := lookupKey_some hl
  have hidlt : id < s.idCounter := he1 ▸ hp e he2
  have hidpend : id ∈ s.pending.map Prod.fst :=
    he1 ▸ List.mem_map_of_mem Prod.fst he2
  have hidout : id ∉ s.outcomes.map Prod.fst := fun hmem => hdisj id ⟨hidpend, hmem⟩
  refine ⟨?_, ?_, ?_, ?_, ?_, ?_⟩
  · intro e' he'
    exact hp e' (mem_deleteKey he')
  · intro o' ho'
    rcases List.mem_append.mp ho' with hmem | hmem
    · exact ho o' hmem
    · simp only [List.mem_singleton] at hmem
      rw [hmem]
      exact hidlt
  · exact List.Nodup.sublist (keys_deleteKey_sublist _ _) hnp
  · rw [List.map_append]
    simp only [List.map_cons, List.map_nil]
    rw [List.nodup_append]
    refine ⟨hno, by simp, ?_⟩
    intro a ha hb
    simp only [List.mem_singleton] at hb
    exact hidout (hb ▸ ha)
  · intro x hx
    obtain ⟨hx1, hx2⟩ := hx
    have hxp : x ∈ s.pending.map Prod.fst := by
      obtain ⟨e', he', rfl⟩ := List.mem_map.mp hx1
      exact List.mem_map_of_mem Prod.fst (mem_deleteKey he')
    have hxne : x ≠ id := fun hxe => not_mem_keys_deleteKey hnp (hxe ▸ hx1)
    rw [List.map_append] at hx2
    simp only [List.map_cons, List.map_nil, List.mem_append, List.mem_singleton] at hx2
    rcases hx2 with hmem | heq
    · exact hdisj x ⟨hxp, hmem⟩
    · exact hxne heq
  · intro x hxlt
    rcases hcomp x hxlt with hpend | hout
    · by_cases hxe : x = id
      · right
        rw [List.map_append]
        simp [hxe]
      · left
        exact mem_keys_deleteKey_of_ne hpend hxe
    · right
      rw [List.map_append]
      exact List.mem_append_left _ hout

/-- prepareRequest preserves the helper invariant. -/
theorem rrInv_prepare {s : RRState} (h : rrInv s) : rrInv (prepareRequest s).2 := by
  unfold rrInv at h ⊢
  simp only [prepareRequest]
  obtain ⟨hp, ho, hnp, hno, hdisj, hcomp⟩ := h
  refine ⟨?_, ?_, ?_, ?_, ?_, ?_⟩
  · intro e he
    rcases List.mem_append.mp he with hm | hm
    · exact Nat.lt_succ_of_lt (hp e hm)
    · simp only [List.mem_singleton] at hm
      rw [hm]
      exact Nat.lt_succ_self _
  · intro o' ho'
    exact Nat.lt_succ_of_lt (ho o' ho')
  · rw [List.map_append]
    simp only [List.map_cons, List.map_nil]
    rw [List.nodup_append]
    refine ⟨hnp, by simp, ?_⟩
    intro a ha hb
    simp only [List.mem_singleton] at hb
    obtain ⟨e, he, rfl⟩ := List.mem_map.mp ha
    have := hp e he
    omega
  · exact hno
  · intro x hx
    obtain ⟨hx1, hx2⟩ := hx
    rw [List.map_append] at hx1
    simp only [List.map_cons, List.map_nil, List.mem_append, List.mem_singleton] at hx1
    rcases hx1 with hm | heq
    · exact hdisj x ⟨hm, hx2⟩
    · subst heq
      obtain ⟨o', ho', hfst⟩ := List.mem_map.mp hx2
      have := ho o' ho'
      omega
  · intro x hxlt
    by_cases hxe : x = s.idCounter
    · left
      rw [List.map_append]
      simp [hxe]
    · have hxlt' : x < s.idCounter := by
        have : x < s.idCounter + 1 := hxlt
        omega
      rcases hcomp x hxlt' with hm | hm
      · left
        rw [List.map_append]
        exact List.mem_append_left _ hm
      · right
        exact hm

/-- registerReply preserves the helper invariant. -/
theorem rrInv_registerReply {s : RRState} (h : rrInv s) (id : Nat) :
    rrInv (registerReply s id) := by
  cases hl : lookupKey s.pending id with
  | none => rw [registerReply_of_lookup_none hl]; exact h
  | some e => rw [registerReply_of_lookup_some hl]; exact rrInv_settle h hl _

/-- registerError preserves the helper invariant. -/
theorem rrInv_registerError {s : RRState} (h : rrInv s) (id : Nat) (b : Bool) :
    rrInv (registerError s id b) := by
  cases hl : lookupKey s.pending id with
  | none => rw [registerError_of_lookup_none b hl]; exact h
  | some e => rw [registerError_of_lookup_some b hl]; exact rrInv_settle h hl _

/-- Every trace operation preserves the helper invariant. -/
theorem rrInv_step {s : RRState} (h : rrInv s) (op : RROp) : rrInv (rrStep s op) := by
  cases op with
  | prepare => exact rrInv_prepare h
  | reply id => exact rrInv_registerReply h id
  | error id => exact rrInv_registerError h id false
  | elapse dt => exact h
  | fire id =>
      cases hl : lookupKey s.pending id with
      | none => rw [rrStep_fire_none hl]; exact h
      | some e =>
          rw [rrStep_fire_some hl]
          by_cases hle : e.2 ≤ s.now
          · rw [if_pos hle]
            exact rrInv_registerError h id true
          · rw [if_neg hle]
            exact h

/-- Whole traces preserve the helper invariant. -/
theorem rrInv_run : ∀ (ops : List RROp) (s : RRState), rrInv s → rrInv (rrRun s ops) := by
  intro ops
  induction ops with
  | nil => intro s h; exact h
  | cons op rest ih => intro s h; exact ih (rrStep s op) (rrInv_step h op)

/-- The initial helper state satisfies the invariant. -/
theorem rrInv_init (t : Nat) : rrInv (rrInit t) := by
  unfold rrInv rrInit
  refine ⟨?_, ?_, ?_, ?_, ?_, ?_⟩ <;> simp

/-- registerReply never changes the id counter. -/
theorem registerReply_idCounter (s : RRState) (id : Nat) :
    (registerReply s id).idCounter = s.idCounter := by
  unfold registerReply releaseId
  cases lookupKey s.pending id <;> rfl

/-- registerError never changes the id counter. -/
theorem registerError_idCounter (s : RRState) (id : Nat) (b : Bool) :
    (registerError s id b).idCounter = s.idCounter := by
  unfold registerError releaseId
  cases lookupKey s.pending id <;> rfl

/-- The id counter never decreases along a trace step. -/
theorem rrStep_idCounter_le (s : RRState) (op : RROp) :
    s.idCounter ≤ (rrStep s op).idCounter := by
  cases op with
  | prepare => exact Nat.le_succ _
  | reply id =>
      rw [show rrStep s (.reply id) = registerReply s id from rfl,
        registerReply_idCounter]
  | error id =>
      rw [show rrStep s (.error id) = registerError s id false from rfl,
        registerError_idCounter]
  | elapse dt => exact Nat.le_refl _
  | fire id =>
      cases hl : lookupKey s.pending id with
      | none => rw [rrStep_fire_none hl]
      | some e =>
          rw [rrStep_fire_some hl]
          by_cases hle : e.2 ≤ s.now
          · rw [if_pos hle, registerError_idCounter]
          · rw [if_neg hle]

/-- Every id handed out later in a trace is at least the current counter. -/
theorem rrPreparedIds_lb :
    ∀ (ops : List RROp) (s : RRState), ∀ x ∈ rrPreparedIds s ops, s.idCounter ≤ x := by
  intro ops
  induction ops with
  | nil =>
      intro s x hx
      simp [rrPreparedIds] at hx
  | cons op rest ih =>
      intro s x hx
      cases op with
      | prepare =>
          rw [show rrPreparedIds s (RROp.prepare :: rest)
              = (prepareRequest s).1 :: rrPreparedIds (rrStep s .prepare) rest from rfl] at hx
          rcases List.mem_cons.mp hx with rfl | hm
          · exact Nat.le_refl _
          · have h1 := ih (rrStep s .prepare) x hm
            have h2 : (rrStep s RROp.prepare).idCounter = s.idCounter + 1 := rfl
            omega
      | reply id =>
          have h1 := ih (rrStep s (.reply id)) x hx
          have h2 := rrStep_idCounter_le s (RROp.reply id)
          omega
      | error id =>
          have h1 := ih (rrStep s (.error id)) x hx
          have h2 := rrStep_idCounter_le s (RROp.error id)
          omega
      | elapse dt =>
          have h1 := ih (rrStep s (.elapse dt)) x hx
          have h2 := rrStep_idCounter_le s (RROp.elapse dt)
          omega
      | fire id =>
          have h1 := ih (rrStep s (.fire id)) x hx
          have h2 := rrStep_idCounter_le s (RROp.fire id)
          omega

/-- The ids handed out by prepareRequest along any trace are strictly
increasing. -/
theorem rrPreparedIds_chain :
    ∀ (ops : List RROp) (s : RRState), List.Chain' (· < ·) (rrPreparedIds s ops) := by
  intro ops
  induction ops with
  | nil => intro s; simp [rrPreparedIds]
  | cons op rest ih =>
      intro s
      cases op with
      | prepare =>
          rw [show rrPreparedIds s (RROp.prepare :: rest)
              = (prepareRequest s).1 :: rrPreparedIds (rrStep s .prepare) rest from rfl,
            List.chain'_cons']
          refine ⟨?_, ih _⟩
          intro y hy
          have hmem : y ∈ rrPreparedIds (rrStep s .prepare) rest :=
            List.mem_of_mem_head? hy
          have h1 := rrPreparedIds_lb rest (rrStep s .prepare) y hmem
          have h2 : (rrStep s RROp.prepare).idCounter = s.idCounter + 1 := rfl
          have h3 : (prepareRequest s).1 = s.idCounter := rfl
          omega
      | reply id => exact ih _
      | error id => exact ih _
      | elapse dt => exact ih _
      | fire id => exact ih _

/-- C3: along every finite trace of prepareRequest, registerReply,
registerError, elapsing time and timer firings, settled ids are unique
and no id is both pending and settled while every allocated id is one or
the other (each promise resolves or rejects at most once, and exactly
once when its timer eventually fires); prepared ids are strictly
increasing and the next one is fresh; registerReply and registerError
with a non-pending id are no-ops; prepareRequest arms a timer at the
configured timeout; and the armed timer, which can only fire once its
deadline is reached, rejects the request with the Timed-out error. -/
theorem requestReplyHelper_lifecycle :
    ∀ (t : Nat) (ops : List RROp),
      (((rrRun (rrInit t) ops).outcomes.map Prod.fst).Nodup
        ∧ (∀ id, ¬(id ∈ (rrRun (rrInit t) ops).pending.map Prod.fst
              ∧ id ∈ (rrRun (rrInit t) ops).outcomes.map Prod.fst))
        ∧ (∀ id, id < (rrRun (rrInit t) ops).idCounter →
            id ∈ (rrRun (rrInit t) ops).pending.map Prod.fst
            ∨ id ∈ (rrRun (rrInit t) ops).outcomes.map Prod.fst))
      ∧ List.Chain' (· < ·) (rrPreparedIds (rrInit t) ops)
      ∧ ((prepareRequest (rrRun (rrInit t) ops)).1
            ∉ (rrRun (rrInit t) ops).pending.map Prod.fst
        ∧ (prepareRequest (rrRun (rrInit t) ops)).1
            ∉ (rrRun (rrInit t) ops).outcomes.map Prod.fst)
      ∧ (∀ (s : RRState) (id : Nat), id ∉ s.pending.map Prod.fst →
          registerReply s id = s ∧ ∀ b, registerError s id b = s)
      ∧ (∀ s : RRState,
          (prepareRequest s).2.pending
            = s.pending ++ [(s.idCounter, s.now + s.defaultTimeout)])
      ∧ (∀ (id d : Nat), (id, d) ∈ (rrRun (rrInit t) ops).pending →
          (d ≤ (rrRun (rrInit t) ops).now →
            rrStep (rrRun (rrInit t) ops) (RROp.fire id)
              = { releaseId (rrRun (rrInit t) ops) id with
                    outcomes := (rrRun (rrInit t) ops).outcomes
                      ++ [(id, RROutcome.rejected true)] })
          ∧ ((rrRun (rrInit t) ops).now < d →
            rrStep (rrRun (rrInit t) ops) (RROp.fire id) = rrRun (rrInit t) ops)) := by
  intro t ops
  have hinv := rrInv_run ops (rrInit t) (rrInv_init t)
  unfold rrInv at hinv
  obtain ⟨hp, ho, hnp, hno, hdisj, hcomp⟩ := hinv
  refine ⟨⟨hno, hdisj, hcomp⟩, rrPreparedIds_chain ops (rrInit t), ⟨?_, ?_⟩, ?_, fun s => rfl, ?_⟩
  · intro hmem
    obtain ⟨e, he, hf⟩ := List.mem_map.mp hmem
    have h1 := hp e he
    have h2 : (prepareRequest (rrRun (rrInit t) ops)).1
        = (rrRun (rrInit t) ops).idCounter := rfl
    omega
  · intro hmem
    obtain ⟨o', ho', hf⟩ := List.mem_map.mp hmem
    have h1 := ho o' ho'
    have h2 : (prepareRequest (rrRun (rrInit t) ops)).1
        = (rrRun (rrInit t) ops).idCounter := rfl
    omega
  · intro s id h
    have hl := lookupKey_eq_none_of_not_mem h
    exact ⟨registerReply_of_lookup_none hl, fun b => registerError_of_lookup_none b hl⟩
  · intro id d hm
    have hl : lookupKey (rrRun (rrInit t) ops).pending id = some (id, d) :=
      lookupKey_of_mem_nodup hnp hm
    constructor
    · intro hd
      rw [rrStep_fire_some hl, if_pos hd, registerError_of_lookup_some true hl]
      have hr : releaseId (rrRun (rrInit t) ops) id
          = { rrRun (rrInit t) ops with
                pending := deleteKey (rrRun (rrInit t) ops).pending id } := by
        unfold releaseId
        rw [hl]
      rw [hr]
    · intro hd
      have hne : ¬((id, d).2 ≤ (rrRun (rrInit t) ops).now) := Nat.not_le.mpr hd
      rw [rrStep_fire_some hl, if_neg hne]

/-- Witness for the helper lifecycle theorem: after preparing request 0
with a 1000 ms timeout and letting 1000 ms pass, registerReply on the
unknown id 5 is a no-op, and firing the armed timer for id 0 rejects it
with the Timed-out error. -/
theorem requestReplyHelper_lifecycle_witness :
    registerReply (rrRun (rrInit 1000) [RROp.prepare, RROp.elapse 1000, RROp.fire 0]) 5
      = rrRun (rrInit 1000) [RROp.prepare, RROp.elapse 1000, RROp.fire 0]
    ∧ rrStep (rrRun (rrInit 1000) [RROp.prepare, RROp.elapse 1000]) (RROp.fire 0)
      = { releaseId (rrRun (rrInit 1000) [RROp.prepare, RROp.elapse 1000]) 0 with
            outcomes := (rrRun (rrInit 1000) [RROp.prepare, RROp.elapse 1000]).outcomes
              ++ [(0, RROutcome.rejected true)] } :=
  ⟨((requestReplyHelper_lifecycle 1000 [RROp.prepare, RROp.elapse 1000, RROp.fire 0]
      ).2.2.2.1 _ 5 (by decide)).1,
   ((requestReplyHelper_lifecycle 1000 [RROp.prepare, RROp.elapse 1000]
      ).2.2.2.2.2 0 1000 (by decide)).1 (by decide)⟩

/-- A search that succeeds on the first list succeeds on the append. -/
theorem find?_append_some {α : Type} (p : α → Bool) {l1 : List α} (l2 : List α)
    {a : α} (h : l1.find? p = some a) : (l1 ++ l2).find? p = some a := by
  induction l1 with
  | nil => simp [List.find?] at h
  | cons x xs ih =>
      rw [List.cons_append]
      by_cases hp : p x
      · rw [List.find?_cons_of_pos _ hp] at h ⊢
        exact h
      · rw [List.find?_cons_of_neg _ hp] at h ⊢
        exact ih h

/-- A search that fails on the first list proceeds to the second. -/
theorem find?_append_none {α : Type} (p : α → Bool) {l1 : List α} (l2 : List α)
    (h : l1.find? p = none) : (l1 ++ l2).find? p = l2.find? p := by
  induction l1 with
  | nil => simp
  | cons x xs ih =>
      rw [List.cons_append]
      by_cases hp : p x
      · rw [List.find?_cons_of_pos _ hp] at h
        exact absurd h (by simp)
      · rw [List.find?_cons_of_neg _ hp] at h ⊢
        exact ih h

/-- The node returned by getOrCreate carries the requested id. -/
theorem getOrCreate_fst_id (ts : TopologyState) (id : NodeId) :
    (getOrCreate ts id).1.id = id := by
  unfold getOrCreate
  cases h : ts.nodes.find? (fun n => n.id == id) with
  | none => rfl
  | some n =>
      have hb := List.find?_some h
      exact eq_of_beq hb

/-- The node returned by getOrCreate carries the locally recorded
version (0 for a fresh node). -/
theorem getOrCreate_fst_version (ts : TopologyState) (id : NodeId) :
    (getOrCreate ts id).1.version = localVersion ts id := by
  unfold getOrCreate localVersion
  cases h : ts.nodes.find? (fun n => n.id == id) <;> rfl

/-- getOrCreate leaves the peers map untouched. -/
theorem getOrCreate_peers (ts : TopologyState) (id : NodeId) :
    (getOrCreate ts id).2.peers = ts.peers := by
  unfold getOrCreate
  cases ts.nodes.find? (fun n => n.id == id) <;> rfl

/-- getOrCreate leaves the own id untouched. -/
theorem getOrCreate_selfId (ts : TopologyState) (id : NodeId) :
    (getOrCreate ts id).2.selfId = ts.selfId := by
  unfold getOrCreate
  cases ts.nodes.find? (fun n => n.id == id) <;> rfl

/-- getOrCreate preserves every locally recorded version, because a
fresh node starts at the default version 0. -/
theorem localVersion_getOrCreate (ts : TopologyState) (id x : NodeId) :
    localVersion (getOrCreate ts id).2 x = localVersion ts x := by
  unfold getOrCreate
  cases h : ts.nodes.find? (fun n => n.id == id) with
  | some n => rfl
  | none =>
      unfold localVersion
      cases h2 : ts.nodes.find? (fun n => n.id == x) with
      | some m => rw [find?_append_some _ _ h2]
      | none =>
          rw [find?_append_none _ _ h2]
          by_cases hx : id = x
          · subst hx
            simp
          · simp [hx]

/-- Which ids the nodes map mentions after getOrCreate. -/
theorem mem_nodeIds_getOrCreate (ts : TopologyState) (id x : NodeId) :
    (∃ n ∈ (getOrCreate ts id).2.nodes, n.id = x)
      ↔ (∃ n ∈ ts.nodes, n.id = x) ∨ x = id := by
  unfold getOrCreate
  cases h : ts.nodes.find? (fun n => n.id == id) with
  | some m =>
      constructor
      · intro hx
        exact Or.inl hx
      · intro hx
        rcases hx with hx | rfl
        · exact hx
        · have hb := List.find?_some h
          exact ⟨m, List.mem_of_find?_eq_some h, eq_of_beq hb⟩
  | none =>
      constructor
      · intro hx
        obtain ⟨n, hn, rfl⟩ := hx
        rcases List.mem_append.mp hn with hm | hm
        · exact Or.inl ⟨n, hm, rfl⟩
        · simp only [List.mem_singleton] at hm
          subst hm
          exact Or.inr rfl
      · intro hx
        rcases hx with ⟨n, hn, hid⟩ | rfl
        · exact ⟨n, List.mem_append_left _ hn, hid⟩
        · exact ⟨{ id := x, version := 0, direct := false, outgoing := [] },
            List.mem_append_right _ (by simp), rfl⟩

/-- What the summary loop computes: peers, own id and local versions are
untouched; the found set collects the summary ids behind the seed; the
request list extends the seed with exactly the summary ids whose local
version is lower; and the nodes map gains exactly the summary ids. -/
theorem summaryLoop_spec :
    ∀ (l : List NodeRoutingSummary) (ts : TopologyState) (found req : List NodeId),
      (summaryLoop ts found req l).1.peers = ts.peers
      ∧ (summaryLoop ts found req l).1.selfId = ts.selfId
      ∧ (∀ x, localVersion (summaryLoop ts found req l).1 x = localVersion ts x)
      ∧ (summaryLoop ts found req l).2.1 = found ++ l.map (fun s => s.id)
      ∧ (summaryLoop ts found req l).2.2
          = req ++ (l.filter
              (fun s => decide (localVersion ts s.id < s.version))).map (fun s => s.id)
      ∧ (∀ x, (∃ n ∈ (summaryLoop ts found req l).1.nodes, n.id = x)
          ↔ (∃ n ∈ ts.nodes, n.id = x) ∨ x ∈ l.map (fun s => s.id)) := by
  intro l
  induction l with
  | nil =>
      intro ts found req
      exact ⟨rfl, rfl, fun x => rfl, by simp [summaryLoop], by simp [summaryLoop],
        fun x => by simp [summaryLoop]⟩
  | cons s rest ih =>
      intro ts found req
      obtain ⟨ih1, ih2, ih3, ih4, ih5, ih6⟩ :=
        ih (getOrCreate ts s.id).2 (found ++ [s.id])
          (if (getOrCreate ts s.id).1.version < s.version then req ++ [s.id] else req)
      have hstep : summaryLoop ts found req (s :: rest)
          = summaryLoop (getOrCreate ts s.id).2 (found ++ [s.id])
              (if (getOrCreate ts s.id).1.version < s.version then req ++ [s.id] else req)
              rest := rfl
      rw [hstep]
      refine ⟨?_, ?_, ?_, ?_, ?_, ?_⟩
      · rw [ih1, getOrCreate_peers]
      · rw [ih2, getOrCreate_selfId]
      · intro x
        rw [ih3, localVersion_getOrCreate]
      · rw [ih4, List.map_cons, List.append_assoc, List.singleton_append]
      · rw [ih5]
        have hfc : rest.filter
              (fun q => decide (localVersion (getOrCreate ts s.id).2 q.id < q.version))
            = rest.filter (fun q => decide (localVersion ts q.id < q.version)) := by
          apply List.filter_congr
          intro q hq
          rw [localVersion_getOrCreate]
        rw [hfc, getOrCreate_fst_version]
        by_cases hc : localVersion ts s.id < s.version
        · rw [if_pos hc]
          have hfil : (s :: rest).filter
                (fun q => decide (localVersion ts q.id < q.version))
              = s :: rest.filter (fun q => decide (localVersion ts q.id < q.version)) := by
            simp [List.filter_cons, hc]
          rw [hfil, List.map_cons, List.append_assoc, List.singleton_append]
        · rw [if_neg hc]
          have hfil : (s :: rest).filter
                (fun q => decide (localVersion ts q.id < q.version))
              = rest.filter (fun q => decide (localVersion ts q.id < q.version)) := by
            simp [List.filter_cons, hc]
          rw [hfil]
      · intro x
        rw [ih6 x, mem_nodeIds_getOrCreate, List.map_cons]
        simp only [List.mem_cons]
        rw [or_assoc]

/-- Membership in the removeRouting target list, spelled out. -/
theorem removeRoutingTargets_mem (ts2 : TopologyState) (found : List NodeId) (x : NodeId) :
    x ∈ removeRoutingTargets ts2 found
      ↔ ((∃ n ∈ ts2.nodes, n.id = x) ∧ ¬ x = ts2.selfId ∧ x ∉ found
          ∧ ∀ pi ∈ ts2.peers, pi.peerId ≠ x) := by
  unfold removeRoutingTargets
  constructor
  · intro hm
    obtain ⟨n, hnf, rfl⟩ := List.mem_map.mp hm
    obtain ⟨hnm, hq⟩ := List.mem_filter.mp hnf
    obtain ⟨hns, hnf2, hnp⟩ := of_decide_eq_true hq
    refine ⟨⟨n, hnm, rfl⟩, hns, hnf2, ?_⟩
    intro pi hpi hpeq
    have := List.find?_eq_none.mp hnp pi hpi
    exact this (by simp [hpeq])
  · rintro ⟨⟨n, hnm, rfl⟩, hself, hfound, htrack⟩
    apply List.mem_map.mpr
    refine ⟨n, List.mem_filter.mpr ⟨hnm, decide_eq_true ?_⟩, rfl⟩
    refine ⟨hself, hfound, ?_⟩
    apply List.find?_eq_none.mpr
    intro pi hpi
    simp [htrack pi hpi]

/-- A list is non-empty exactly when the isEmpty check is negative. -/
theorem not_isEmpty_iff_ne_nil {α : Type} (l : List α) : (!l.isEmpty) = true ↔ l ≠ [] := by
  cases l <;> simp

/-- C7: on a NodeSummary from a tracked peer, an id ends up in the
request set exactly when the locally recorded version is strictly lower
than the advertised one (including the sending peer itself when its
reported ownVersion is newer than its local record); removeRouting for
the sending peer is invoked exactly on the known nodes, other than self,
that are neither listed in the summary nor tracked peers themselves; and
a NodeRequest frame is sent back precisely when the request set is
non-empty. -/
theorem handleNodeSummary_request_and_prune :
    ∀ (ts : TopologyState) (peerId : NodeId) (message : NodeSummaryMessage),
      (ts.peers.find? (fun pi => pi.peerId == peerId)).isSome = true →
      (∀ x, x ∈ (handleNodeSummaryMessage ts peerId message).2.requested
          ↔ ((x = peerId ∧ localVersion ts peerId < message.ownVersion)
            ∨ ∃ s ∈ message.nodes, s.id = x ∧ localVersion ts s.id < s.version))
      ∧ (∀ x, x ∈ (handleNodeSummaryMessage ts peerId message).2.removedFrom
          ↔ ((∃ n ∈ (handleNodeSummaryMessage ts peerId message).1.nodes, n.id = x)
            ∧ x ≠ ts.selfId
            ∧ (∀ s ∈ message.nodes, s.id ≠ x)
            ∧ (∀ pi ∈ ts.peers, pi.peerId ≠ x)))
      ∧ ((handleNodeSummaryMessage ts peerId message).2.sentNodeRequest = true
          ↔ (handleNodeSummaryMessage ts peerId message).2.requested ≠ []) := by
  intro ts peerId message hpeer
  obtain ⟨pi0, hpi0⟩ := Option.isSome_iff_exists.mp hpeer
  have hpi0mem := List.mem_of_find?_eq_some hpi0
  have hb := List.find?_some hpi0
  have hpi0id : pi0.peerId = peerId := eq_of_beq hb
  obtain ⟨hl1, hl2, hl3, hl4, hl5, hl6⟩ :=
    summaryLoop_spec message.nodes (getOrCreate ts peerId).2 [peerId]
      (if (getOrCreate ts peerId).1.version < message.ownVersion
        then [(getOrCreate ts peerId).1.id] else [])
  refine ⟨?_, ?_, ?_⟩
  · intro x
    simp only [handleNodeSummaryMessage]
    rw [hl5]
    have hfc : message.nodes.filter
          (fun s => decide (localVersion (getOrCreate ts peerId).2 s.id < s.version))
        = message.nodes.filter (fun s => decide (localVersion ts s.id < s.version)) := by
      apply List.filter_congr
      intro q hq
      rw [localVersion_getOrCreate]
    rw [hfc, getOrCreate_fst_version, getOrCreate_fst_id, List.mem_append]
    apply or_congr
    · by_cases hc : localVersion ts peerId < message.ownVersion
      · rw [if_pos hc]
        simp [hc]
      · rw [if_neg hc]
        simp [hc]
    · constructor
      · intro hm
        obtain ⟨s, hsf, rfl⟩ := List.mem_map.mp hm
        obtain ⟨hsm, hsv⟩ := List.mem_filter.mp hsf
        exact ⟨s, hsm, rfl, of_decide_eq_true hsv⟩
      · rintro ⟨s, hsm, hid, hv⟩
        exact List.mem_map.mpr ⟨s, List.mem_filter.mpr ⟨hsm, decide_eq_true hv⟩, hid⟩
  · intro x
    simp only [handleNodeSummaryMessage]
    rw [removeRoutingTargets_mem, hl4, hl2, getOrCreate_selfId, hl1, getOrCreate_peers]
    constructor
    · rintro ⟨hex, hself, hfound, htrack⟩
      refine ⟨hex, hself, ?_, htrack⟩
      intro s hs hsx
      exact hfound (List.mem_append_right _ (hsx ▸ List.mem_map_of_mem _ hs))
    · rintro ⟨hex, hself, hsum, htrack⟩
      refine ⟨hex, hself, ?_, htrack⟩
      intro hmem
      rcases List.mem_append.mp hmem with hm | hm
      · simp only [List.mem_singleton] at hm
        exact htrack pi0 hpi0mem (hpi0id.trans hm.symm)
      · obtain ⟨s, hs, hsid⟩ := List.mem_map.mp hm
        exact hsum s hs hsid
  · exact not_isEmpty_iff_ne_nil _

/-- Witness for the NodeSummary theorem: in the example topology the
newly advertised node 2 is requested and the stale node 3, no longer
listed by peer 1, gets its route via that peer removed. -/
theorem handleNodeSummary_request_and_prune_witness :
    [2] ∈ (handleNodeSummaryMessage topologyExample [1] summaryExample).2.requested
    ∧ [3] ∈ (handleNodeSummaryMessage topologyExample [1] summaryExample).2.removedFrom :=
  ⟨((handleNodeSummary_request_and_prune topologyExample [1] summaryExample
        (by decide)).1 [2]).mpr
      (Or.inr ⟨{ id := [2], version := 4 }, by decide, rfl, by decide⟩),
   ((handleNodeSummary_request_and_prune topologyExample [1] summaryExample
        (by decide)).2.1 [3]).mpr
      ⟨⟨{ id := [3], version := 2, direct := false, outgoing := [] }, by decide, rfl⟩,
        by decide, by decide, by decide⟩⟩

end Ataraxia
